import Mathlib

/-!
Verification development for the OCTIS hyperparameter-optimization repository.

The embedding covers the two source files:

* `src/optimization/optimizer.py` — the checkpointed, multi-trial Bayesian
  optimization driver (`Optimizer.Bayesian_optimization`, `Optimizer.optimize`,
  `Optimizer._objective_function`, module-level `default_parameters`);
* `src/evaluation_metrics/coherence_metrics.py` — the four coherence metrics
  and their shared `topk` guard.

The driver dispatches on the chosen minimizer (`dummy_minimize`,
`forest_minimize`, `gp_minimize`) and on the `save` / `early_stop` flags, and
executes the per-trial evaluation budget in chunks, checkpointing and possibly
resuming between chunks.  The embedding below records, for one trial (the code
treats trials independently and identically), the sequence of minimizer
invocations the driver issues: which minimizer is called, how many new
objective evaluations the call requests (`n_calls` / the `opt.run` count),
which `n_random_starts` / `n_initial_points` arguments are passed, and whether
the restored history is replayed with `tell` before the run.  The external
numeric library (skopt) is specified only at its interface: a minimizer call
with a supplied `(x0, y0)` prior executes exactly the requested number of new
objective evaluations and returns the prior followed by the new records.
-/

/-- The three minimizer strategies of `optimizer.py`:
`dummy_minimize` (pure random search), `forest_minimize` (tree-ensemble
surrogate), and the Gaussian-process path built on `skopt.Optimizer`
(`gp_minimize` branch). -/
inductive MinKind where
  | dummy
  | forest
  | gpOpt
deriving DecidableEq

/-- One minimizer invocation issued by the driver for one trial.

* `kind` — which minimizer function is actually called;
* `nCalls` — the number of new objective evaluations requested (`n_calls`
  with an `(x0, y0)` prior, or the count given to `opt.run`); the Python
  code passes the boolean `early_stop` as a run count in one branch, which
  Python evaluates as the integer 1, and the embedding records that value;
* `nRandomStarts` — the `n_random_starts` argument (`none` when the called
  function has no such parameter, as for `dummy_minimize`);
* `nInitialPoints` — the `n_initial_points` argument of `skopt.Optimizer`
  (`none` for the plain minimize functions);
* `tellHistory` — whether the driver calls `opt.tell` with the accumulated
  history before issuing the run (Gaussian-process path only). -/
structure ChunkSpec where
  kind : MinKind
  nCalls : Nat
  nRandomStarts : Option Nat
  nInitialPoints : Option Nat
  tellHistory : Bool
deriving DecidableEq

/-- Invocation of `dummy_minimize` (no `n_random_starts` parameter). -/
def dummySpec (c : Nat) : ChunkSpec :=
  ⟨.dummy, c, none, none, false⟩

/-- Invocation of `forest_minimize` with the given `n_calls` and
`n_random_starts`. -/
def forestSpec (c nrs : Nat) : ChunkSpec :=
  ⟨.forest, c, some nrs, none, false⟩

/-- Invocation of the Gaussian-process `skopt.Optimizer` with the given run
count, `n_random_starts`, `n_initial_points`, and whether `tell` is issued
with the accumulated history before the run. -/
def gpSpec (c nrs nInit : Nat) (tellH : Bool) : ChunkSpec :=
  ⟨.gpOpt, c, some nrs, some nInit, tellH⟩

/-- The driver's resume loop, shared shape of every
`while (number_of_call_r > 0)` loop in `Bayesian_optimization`.  At remaining
budget `r` the loop compares `r` against the threshold `t`
(`save_step`, or `early_step` in the Gaussian-process early-stop branch),
builds the chunk from that comparison and from `r`
(`mk true _` is the then-branch chunk, `mk false r` the else-branch chunk),
and decrements `r` by `d` (`save_step`, or the boolean `early_stop`, i.e. 1,
in the Gaussian-process early-stop branch).  The Python loop terminates for
every `d ≥ 1`; the structural `fuel` argument (instantiated with the full
budget, an upper bound on the iteration count) makes the recursion total
without changing the computed list for any `d ≥ 1`. -/
def chunkLoop (t d : Nat) (mk : Bool → Nat → ChunkSpec) : Nat → Int → List ChunkSpec
  | 0, _ => []
  | fuel + 1, r =>
    if 0 < r then
      mk (decide ((t : Int) ≤ r)) r.toNat :: chunkLoop t d mk fuel (r - (d : Int))
    else []

/-- Per-trial early-stop gating of the Gaussian-process `save == False and
early_stop == True` branch: `early_stop_flag[i]` starts false, each executed
chunk may set it (the external `tool.early_condition`, abstracted as the
oracle `stopF` indexed by executed-chunk count), and a set flag permanently
excludes the trial from the remaining chunks. -/
def stopFilter (stopF : Nat → Bool) : List ChunkSpec → Nat → List ChunkSpec
  | [], _ => []
  | c :: cs, idx => c :: (if stopF idx then [] else stopFilter stopF cs (idx + 1))

/-- The per-trial invocation sequence of `Optimizer.Bayesian_optimization`
(src/optimization/optimizer.py, lines 240–1227) after configuration
validation, for a trial whose initial prior `x0[i]` has `lenX0` points
(`lenX0 = 0` for the standard `X0 = [None]` path taken by `optimize()`).

Arguments mirror the Python parameters: `n` is `number_of_call`,
`s` is `save_step`, `e` is `early_step`, `nrs` is `n_random_starts`.
Each minimizer block has five cases, in the source's `if`/`elif` order:

1. `save == False and early_stop == False` — one full-budget call;
2. `save_step >= number_of_call and save` and
   `(early_step >= number_of_call or not early_stop)` — one full-budget call
   with a checkpoint callback;
3. `save and not early_stop` — a first chunk of `save_step` calls, then the
   restore loop (for `forest_minimize` the first chunk is enlarged to
   `save_step + n_random_starts` when `save_step < n_random_starts + len(x0)`,
   and resumed chunks pass `n_random_starts = 0`);
4. `not save and early_stop` — for `dummy`/`forest` a single call with the
   early-stop callback; for the Gaussian-process path a first chunk of
   `early_step` run calls, then a loop whose remaining-budget arithmetic uses
   the boolean `early_stop` (i.e. 1) as both decrement and then-branch run
   count, gated per trial by `early_stop_flag`;
5. `save and early_stop` — chunked like case 3; in the Gaussian-process block
   this case calls `forest_minimize` for the first chunk and `dummy_minimize`
   for every resumed chunk. -/
def specsOf (m : MinKind) (save early : Bool) (stopF : Nat → Bool)
    (n s e nrs lenX0 : Nat) : List ChunkSpec :=
  match m with
  | .dummy =>
    if save = false ∧ early = false then
      [dummySpec n]
    else if (n ≤ s ∧ save = true) ∧ (n ≤ e ∨ early = false) then
      [dummySpec n]
    else if save = true ∧ early = false then
      dummySpec s ::
        chunkLoop s s (fun b r => dummySpec (if b then s else r)) n ((n : Int) - (s : Int))
    else if save = false ∧ early = true then
      [dummySpec n]
    else
      dummySpec s ::
        chunkLoop s s (fun b r => dummySpec (if b then s else r)) n ((n : Int) - (s : Int))
  | .forest =>
    if save = false ∧ early = false then
      [forestSpec n nrs]
    else if (n ≤ s ∧ save = true) ∧ (n ≤ e ∨ early = false) then
      [forestSpec n nrs]
    else if save = true ∧ early = false then
      forestSpec (if nrs + lenX0 ≤ s then s else s + nrs) nrs ::
        chunkLoop s s (fun b r => forestSpec (if b then s else r) 0) n ((n : Int) - (s : Int))
    else if save = false ∧ early = true then
      [forestSpec n nrs]
    else
      forestSpec (if nrs + lenX0 ≤ s then s else s + nrs) nrs ::
        chunkLoop s s
          (fun b r =>
            if b then forestSpec (if lenX0 ≤ s then s else s + lenX0) 0
            else forestSpec (if nrs + lenX0 ≤ s then r else r + lenX0) 0)
          n ((n : Int) - (s : Int))
  | .gpOpt =>
    if save = false ∧ early = false then
      [gpSpec n nrs nrs (decide (0 < lenX0))]
    else if (n ≤ s ∧ save = true) ∧ (n ≤ e ∨ early = false) then
      [gpSpec n nrs nrs (decide (0 < lenX0))]
    else if save = true ∧ early = false then
      gpSpec s nrs nrs (decide (0 < lenX0)) ::
        chunkLoop s s (fun b r => gpSpec (if b then s else r) 0 0 true) n ((n : Int) - (s : Int))
    else if save = false ∧ early = true then
      stopFilter stopF
        (gpSpec e nrs nrs (decide (0 < lenX0)) ::
          chunkLoop e 1 (fun b r => gpSpec (if b then 1 else r) 0 0 true) n ((n : Int) - 1))
        0
    else
      forestSpec s nrs ::
        chunkLoop s s (fun b r => dummySpec (if b then s else r)) n ((n : Int) - (s : Int))

/-- `Optimizer.Bayesian_optimization` (src/optimization/optimizer.py,
lines 200–207 and onward): configuration validation, then the per-trial
invocation schedule.  `number_of_call <= 0` and `different_iteration <= 2`
are reported as errors and the function returns `None` (here `none`) without
running any chunk. -/
def Bayesian_optimization (m : MinKind) (number_of_call different_iteration : Int)
    (save early : Bool) (stopF : Nat → Bool) (s e nrs lenX0 : Nat) :
    Option (List ChunkSpec) :=
  if number_of_call ≤ 0 then none
  else if different_iteration ≤ 2 then none
  else some (specsOf m save early stopF number_of_call.toNat s e nrs lenX0)

/-- Pair each invocation with the number of history records the driver has
told the optimizer before issuing the run (`none` when no `tell` is issued).
`h0` is the number of records already in hand before the first listed chunk
(the length of the trial's initial `x0`); every executed chunk adds its
`nCalls` new records, matching the skopt interface contract that a run with a
`(x0, y0)` prior evaluates exactly `n_calls` new points. -/
def mkInvs (h0 : Nat) : List ChunkSpec → List (ChunkSpec × Option Nat)
  | [] => []
  | c :: cs => (c, if c.tellHistory then some h0 else none) :: mkInvs (h0 + c.nCalls) cs

/-- The driver's per-trial invocations together with the told-history sizes. -/
def invocationsOf (m : MinKind) (save early : Bool) (stopF : Nat → Bool)
    (n s e nrs lenX0 : Nat) : List (ChunkSpec × Option Nat) :=
  mkInvs lenX0 (specsOf m save early stopF n s e nrs lenX0)

/-- Every element of a resume loop is produced by the loop body. -/
theorem chunkLoop_mem {t d : Nat} {mk : Bool → Nat → ChunkSpec} :
    ∀ {fuel : Nat} {r : Int} {spec : ChunkSpec}, spec ∈ chunkLoop t d mk fuel r →
      ∃ b r', spec = mk b r' := by
  intro fuel
  induction fuel with
  | zero => intro r spec h; simp [chunkLoop] at h
  | succ fuel ih =>
    intro r spec h
    simp only [chunkLoop] at h
    by_cases hr : 0 < r
    · rw [if_pos hr] at h
      rcases List.mem_cons.mp h with h | h
      · exact ⟨_, _, h⟩
      · exact ih h
    · rw [if_neg hr] at h; simp at h

/-- Early-stop gating only removes chunks, it never introduces new ones. -/
theorem stopFilter_mem {stopF : Nat → Bool} :
    ∀ {l : List ChunkSpec} {idx : Nat} {spec : ChunkSpec},
      spec ∈ stopFilter stopF l idx → spec ∈ l := by
  intro l
  induction l with
  | nil => intro idx spec h; simp [stopFilter] at h
  | cons c cs ih =>
    intro idx spec h
    simp only [stopFilter] at h
    rcases List.mem_cons.mp h with h | h
    · exact h ▸ List.mem_cons_self c cs
    · by_cases hs : stopF idx
      · simp [hs] at h
      · simp only [hs, if_false] at h
        exact List.mem_cons_of_mem c (ih h)

/-- Structure of every invocation issued for a chunk after the first. -/
def resumedAdjusted (spec : ChunkSpec) : Prop :=
  (spec.kind = .forest → spec.nRandomStarts = some 0) ∧
  (spec.kind = .gpOpt → spec.nInitialPoints = some 0 ∧ spec.tellHistory = true)

/-- Every chunk after the first is issued with the strategy-specific
resumption adjustments: `forest_minimize` receives `n_random_starts = 0`, and
the Gaussian-process optimizer is built with `n_initial_points = 0` and is
told the restored history before running. -/
theorem specsOf_drop_one (m : MinKind) (save early : Bool) (stopF : Nat → Bool)
    (n s e nrs lenX0 : Nat) :
    ∀ spec ∈ (specsOf m save early stopF n s e nrs lenX0).drop 1, resumedAdjusted spec := by
  intro spec hspec
  cases m <;> simp only [specsOf] at hspec <;> split_ifs at hspec <;>
    simp only [List.drop_one, List.tail_cons, List.tail_nil] at hspec
  all_goals first
    | simp at hspec
    | (obtain ⟨b, r', rfl⟩ := chunkLoop_mem hspec
       constructor <;> intro hk <;>
         first
           | (simp [dummySpec] at hk)
           | (split_ifs <;> simp_all [dummySpec, forestSpec, gpSpec]))
    | skip
  -- remaining: the Gaussian-process `save == False and early_stop == True` branch
  · simp only [stopFilter, List.tail_cons] at hspec
    by_cases h0 : stopF 0
    · simp [h0] at hspec
    · rw [if_neg h0] at hspec
      obtain ⟨b, r', rfl⟩ := chunkLoop_mem (stopFilter_mem hspec)
      constructor <;> intro hk <;> split_ifs <;> simp_all [gpSpec]


/-- The told-history size attached to the `k`-th invocation is the initial
prior size plus the evaluations of all earlier chunks. -/
theorem mkInvs_getElem? :
    ∀ (l : List ChunkSpec) (h0 k : Nat),
      (mkInvs h0 l)[k]? = (l[k]?).map
        (fun c => (c, if c.tellHistory then
            some (h0 + ((l.take k).map ChunkSpec.nCalls).sum) else none)) := by
  intro l
  induction l with
  | nil => intro h0 k; simp [mkInvs]
  | cons c cs ih =>
    intro h0 k
    cases k with
    | zero => simp [mkInvs]
    | succ k =>
      simp only [mkInvs, List.getElem?_cons_succ, List.take_succ_cons, List.map_cons,
        List.sum_cons]
      rw [ih (h0 + c.nCalls) k]
      cases h : cs[k]? with
      | none => simp
      | some c' => simp [Nat.add_assoc]

/-- C2: for every resumed chunk (any chunk after the first, restored from a
checkpoint), the driver passes an unbiased-random-start count of zero to the
tree-ensemble minimizer (`forest_minimize` is called with
`n_random_starts = 0`), and on the Gaussian-process path it builds the
optimizer with the initial-random-point count set to zero
(`n_initial_points = 0`) and tells it the full restored history — the initial
prior plus every evaluation of the earlier chunks — before issuing the run
call for the new chunk. -/
theorem resumed_chunk_adjustments (m : MinKind) (save early : Bool) (stopF : Nat → Bool)
    (n s e nrs lenX0 : Nat) (k : Nat) (spec : ChunkSpec) (told : Option Nat)
    (hk : (invocationsOf m save early stopF n s e nrs lenX0)[k]? = some (spec, told))
    (hres : 0 < k) :
    (spec.kind = .forest → spec.nRandomStarts = some 0) ∧
    (spec.kind = .gpOpt → spec.nInitialPoints = some 0 ∧
      told = some (lenX0 +
        (((specsOf m save early stopF n s e nrs lenX0).take k).map ChunkSpec.nCalls).sum)) := by
  unfold invocationsOf at hk
  rw [mkInvs_getElem?] at hk
  rcases Option.map_eq_some'.mp hk with ⟨c, hc, hceq⟩
  have h1 : c = spec := congrArg Prod.fst hceq
  have h2 : (if c.tellHistory then
      some (lenX0 + (((specsOf m save early stopF n s e nrs lenX0).take k).map
        ChunkSpec.nCalls).sum) else none) = told := congrArg Prod.snd hceq
  subst h1
  have hmem : c ∈ (specsOf m save early stopF n s e nrs lenX0).drop 1 := by
    have hd : ((specsOf m save early stopF n s e nrs lenX0).drop 1)[k - 1]? = some c := by
      rw [List.getElem?_drop]
      rwa [Nat.add_sub_cancel' hres]
    exact List.getElem?_mem hd
  have hadj := specsOf_drop_one m save early stopF n s e nrs lenX0 c hmem
  refine ⟨hadj.1, fun hgp => ⟨(hadj.2 hgp).1, ?_⟩⟩
  rw [← h2, if_pos ((hadj.2 hgp).2)]


/-- C2 witness: the second chunk of a Gaussian-process save-enabled run
(budget 10, `save_step` 5, `n_random_starts` 7) is issued with
`n_initial_points = 0` and is told all 5 restored records. -/
theorem resumed_chunk_adjustments_witness :
    ((invocationsOf .gpOpt true false (fun _ => false) 10 5 10 7 0)[1]? =
        some (gpSpec 5 0 0 true, some 5)) ∧ 0 < 1 ∧
    (((gpSpec 5 0 0 true).kind = .forest → (gpSpec 5 0 0 true).nRandomStarts = some 0) ∧
      ((gpSpec 5 0 0 true).kind = .gpOpt → (gpSpec 5 0 0 true).nInitialPoints = some 0 ∧
        (some 5 : Option Nat) = some (0 +
          (((specsOf .gpOpt true false (fun _ => false) 10 5 10 7 0).take 1).map
            ChunkSpec.nCalls).sum))) :=
  ⟨by decide, by decide,
    resumed_chunk_adjustments .gpOpt true false (fun _ => false) 10 5 10 7 0 1
      (gpSpec 5 0 0 true) (some 5) (by decide) (by decide)⟩

/-- C1: with the random minimizer, budget 10, no checkpointing and no early
stopping, the trial's single chunk requests exactly 10 evaluations (so the
evaluation history has exactly 10 records); but in the Gaussian-process
`save == False and early_stop == True` branch (budget 10, `early_step` 5, no
trial ever meeting the early-stop condition) the driver's chunks are
[5, 1, 1, 1, 1, 1, 4, 3, 2, 1], summing to 20 evaluations: the sum of the
chunk sizes executed for the trial is 20, not
`min(total evaluations actually run, number_of_call) = min(20, 10) = 10`,
because the code uses the boolean `early_stop` (i.e. 1) as the remaining-budget
decrement and as the resumed run count where `early_step` was meant. -/
theorem chunk_sum_budget_violation :
    ((specsOf .dummy false false (fun _ => false) 10 1 5 10 0).map ChunkSpec.nCalls) = [10] ∧
    ((specsOf .gpOpt false true (fun _ => false) 10 1 5 10 0).map ChunkSpec.nCalls) =
      [5, 1, 1, 1, 1, 1, 4, 3, 2, 1] ∧
    (((specsOf .gpOpt false true (fun _ => false) 10 1 5 10 0).map ChunkSpec.nCalls).sum = 20 ∧
      ¬ (((specsOf .gpOpt false true (fun _ => false) 10 1 5 10 0).map
            ChunkSpec.nCalls).sum = min 20 10)) := by
  refine ⟨by decide, by decide, by decide, ?_⟩
  decide

/-- C3: in the `save == True and early_stop == True` case of the
Gaussian-process block (budget 10, `save_step` 5), the driver executes the
first chunk with `forest_minimize` and the resumed chunk with
`dummy_minimize`; no chunk at all is executed with the Gaussian-process
minimizer, contradicting uniformity across strategies. -/
theorem gp_save_early_strategy_mismatch :
    ((specsOf .gpOpt true true (fun _ => false) 10 5 10 10 0).map ChunkSpec.kind) =
      [.forest, .dummy] ∧
    MinKind.gpOpt ∉ ((specsOf .gpOpt true true (fun _ => false) 10 5 10 10 0).map
      ChunkSpec.kind) := by
  exact ⟨by decide, by decide⟩

/-- C5: a non-positive evaluation budget or a trial count of 2 or fewer is a
configuration error: `Bayesian_optimization` reports it and returns `None`,
executing no chunk, so no `Best_evaluation` can be produced and the invalid
value is never clamped. -/
theorem invalid_config_rejected (m : MinKind) (number_of_call different_iteration : Int)
    (save early : Bool) (stopF : Nat → Bool) (s e nrs lenX0 : Nat)
    (h : number_of_call ≤ 0 ∨ different_iteration ≤ 2) :
    Bayesian_optimization m number_of_call different_iteration save early stopF s e nrs lenX0 =
      none := by
  unfold Bayesian_optimization
  rcases h with h | h
  · rw [if_pos h]
  · split_ifs <;> rfl

/-- C5 witness: a zero budget and a trial count of 2 are both rejected. -/
theorem invalid_config_rejected_witness :
    ((0 : Int) ≤ 0 ∨ (3 : Int) ≤ 2) ∧
    Bayesian_optimization .dummy 0 3 false false (fun _ => false) 1 10 10 0 = none :=
  ⟨Or.inl (by decide),
    invalid_config_rejected .dummy 0 3 false false (fun _ => false) 1 10 10 0
      (Or.inl (by decide))⟩

def digitChar : Nat → Char
  | 0 => '0' | 1 => '1' | 2 => '2' | 3 => '3' | 4 => '4'
  | 5 => '5' | 6 => '6' | 7 => '7' | 8 => '8' | 9 => '9'
  | _ => '*'

/-- Decimal rendering of a natural number, the Lean counterpart of Python's
`str(i)` used to build checkpoint names and disambiguated metric names. -/
def natStr (n : Nat) : String :=
  if n = 0 then "0" else String.mk (((Nat.digits 10 n).map digitChar).reverse)

-- C4 model -----------------------------------------------------------------

/-- One chunk of `c` objective evaluations continuing the history `h`:
the skopt interface contract for a run with prior `(x0, y0)` — the result's
`x_iters`/`func_vals` are the prior followed by exactly `c` new records
(`evalF` is the external objective, indexed by the trial's running
evaluation count). -/
def runChunk {P S : Type} (evalF : Nat → P × S) (h : List (P × S)) (c : Nat) :
    List (P × S) :=
  h ++ (List.range c).map (fun j => evalF (h.length + j))

/-- The evaluation history after executing the chunks `cs` starting from
history `h`. -/
def historyAfter {P S : Type} (evalF : Nat → P × S) (h : List (P × S))
    (cs : List Nat) : List (P × S) :=
  cs.foldl (runChunk evalF) h

/-- Modelled from the spec: the Checkpoint Store.  The saving/loading code —
`skopt.callbacks.CheckpointSaver` and `skopt.load` on the
`dummy`/`forest` paths, and `tool.dump_BO` / `tool.load_BO`
(`optimization/optimizer_tool.py`) on the Gaussian-process path — is not under
`src/`; per §4.5 `save` persists the trial's full evaluated-points/scores pair
under a name derived from the base name and trial index, and `load` must
reconstruct exactly what was saved, regardless of the producing strategy. -/
def saveCheckpoint {P S : Type} (store : String → Option (List (P × S)))
    (saveName : String) (h : List (P × S)) : String → Option (List (P × S)) :=
  fun k => if k = saveName then some h else store k

/-- Modelled from the spec: loading a checkpoint handle returns what the
store holds under that name. -/
def loadCheckpoint {P S : Type} (store : String → Option (List (P × S)))
    (saveName : String) : Option (List (P × S)) :=
  store saveName

/-- The deterministic checkpoint name `<save_name>_<trial_index>` used by the
driver (`save_name + "_" + str(i)`). -/
def checkpointName (base : String) (i : Nat) : String :=
  base ++ "_" ++ natStr i

/-- Resuming: load the stored history and continue it with the chunks `cs`
(restored points and scores become the new run's prior). -/
def resumeRun {P S : Type} (evalF : Nat → P × S)
    (store : String → Option (List (P × S))) (saveName : String) (cs : List Nat) :
    Option (List (P × S)) :=
  (loadCheckpoint store saveName).map (fun h => historyAfter evalF h cs)

theorem historyAfter_append_of_start {P S : Type} (evalF : Nat → P × S) :
    ∀ (cs : List Nat) (h : List (P × S)), ∃ ext, historyAfter evalF h cs = h ++ ext := by
  intro cs
  induction cs with
  | nil => intro h; exact ⟨[], by simp [historyAfter]⟩
  | cons c cs ih =>
    intro h
    rcases ih (runChunk evalF h c) with ⟨ext, hext⟩
    refine ⟨(List.range c).map (fun j => evalF (h.length + j)) ++ ext, ?_⟩
    simp only [historyAfter, List.foldl_cons] at hext ⊢
    rw [hext, runChunk, List.append_assoc]

/-- C4: saving a trial's evaluation history under its checkpoint name and
loading it back reconstructs exactly the saved points and scores (the store is
strategy-agnostic), and resuming from the checkpoint and continuing with
further chunks yields a history that extends — has as prefix — the
pre-checkpoint history. -/
theorem checkpoint_roundtrip_resume_prefix {P S : Type} (evalF : Nat → P × S)
    (store : String → Option (List (P × S))) (base : String) (trialIdx : Nat)
    (h0 : List (P × S)) (cs1 cs2 : List Nat) :
    (loadCheckpoint
        (saveCheckpoint store (checkpointName base trialIdx) (historyAfter evalF h0 cs1))
        (checkpointName base trialIdx) = some (historyAfter evalF h0 cs1)) ∧
    (resumeRun evalF
        (saveCheckpoint store (checkpointName base trialIdx) (historyAfter evalF h0 cs1))
        (checkpointName base trialIdx) cs2 =
      some (historyAfter evalF (historyAfter evalF h0 cs1) cs2)) ∧
    ∃ ext, historyAfter evalF (historyAfter evalF h0 cs1) cs2 =
      historyAfter evalF h0 cs1 ++ ext := by
  refine ⟨?_, ?_, historyAfter_append_of_start evalF cs2 _⟩
  · simp [loadCheckpoint, saveCheckpoint]
  · simp [resumeRun, loadCheckpoint, saveCheckpoint]

-- C6 model -----------------------------------------------------------------

/-- The tail of `Optimizer._objective_function` (lines 164–167): the metric
score is returned negated when the optimization direction is `"Maximize"`,
since all three minimizers minimize. -/
def objectiveReturn (optimization_type : String) (score : ℚ) : ℚ :=
  if optimization_type = "Maximize" then -score else score

/-- The sequence of values the minimizer observes when the objective scores
`scores` are produced in order. -/
def minimizerSees (optimization_type : String) (scores : List ℚ) : List ℚ :=
  scores.map (objectiveReturn optimization_type)

/-- Minimum of a list of observed function values, the skopt contract for a
result's `fun` field. -/
def listMin : List ℚ → ℚ
  | [] => 0
  | x :: xs => xs.foldl min x

/-- Maximum of a list of values. -/
def listMax : List ℚ → ℚ
  | [] => 0
  | x :: xs => xs.foldl max x

/-- The post-processing of `Optimizer.optimize` (lines 1287–1291): under
`"Maximize"` every recorded function value is negated back. -/
def restoreFuncVals (optimization_type : String) (vals : List ℚ) : List ℚ :=
  if optimization_type = "Maximize" then vals.map (fun v => -v) else vals

/-- The best score the driver reports for a trial: the minimizer's best
internal value (`res.fun`, the minimum of the internal `func_vals`), negated
back under `"Maximize"` (line 1289). -/
def reportedBestScore (optimization_type : String) (scores : List ℚ) : ℚ :=
  let internal := listMin (minimizerSees optimization_type scores)
  if optimization_type = "Maximize" then -internal else internal

theorem foldl_min_map_neg (xs : List ℚ) :
    ∀ x : ℚ, (xs.map (fun v => -v)).foldl min (-x) = -(xs.foldl max x) := by
  induction xs with
  | nil => intro x; simp
  | cons y ys ih =>
    intro x
    simp only [List.map_cons, List.foldl_cons]
    rw [min_neg_neg, ih]

/-- C6: when the direction is `"Maximize"` the objective adapter hands the
minimizer the negated scores, the driver's post-processing negates every
recorded value back (recovering the original scores), and the reported best
score is the maximum of the original scores; on the spec's scenario
`[0.1, 0.5, 0.3]` the minimizer sees `[-0.1, -0.5, -0.3]` and the reported
best is `0.5`. -/
theorem maximize_sign_correction (scores : List ℚ) :
    minimizerSees "Maximize" scores = scores.map (fun v => -v) ∧
    restoreFuncVals "Maximize" (minimizerSees "Maximize" scores) = scores ∧
    reportedBestScore "Maximize" scores = listMax scores ∧
    minimizerSees "Maximize" [1/10, 5/10, 3/10] = [-(1/10), -(5/10), -(3/10)] ∧
    reportedBestScore "Maximize" [1/10, 5/10, 3/10] = 5/10 := by
  have hsee : ∀ l : List ℚ, minimizerSees "Maximize" l = l.map (fun v => -v) := by
    intro l; simp [minimizerSees, objectiveReturn]
  have hbest : ∀ l : List ℚ, reportedBestScore "Maximize" l = listMax l := by
    intro l
    cases l with
    | nil => simp [reportedBestScore, minimizerSees, listMin, listMax]
    | cons x xs =>
      simp only [reportedBestScore, hsee, List.map_cons, listMin, listMax]
      rw [foldl_min_map_neg xs x, neg_neg]
      simp
  refine ⟨hsee scores, ?_, hbest scores, hsee _, ?_⟩
  · simp [restoreFuncVals, hsee, Function.comp]
  · rw [hbest]
    show listMax [1/10, 5/10, 3/10] = 5/10
    simp [listMax]
    norm_num [max_def]

-- C7 model -----------------------------------------------------------------

/-- Lexicographic (code-point) ordering on character lists: the comparison
Python's `sorted` applies to strings. -/
def lexLe : List Char → List Char → Bool
  | [], _ => true
  | _ :: _, [] => false
  | a :: as, b :: bs =>
    if a.toNat < b.toNat then true
    else if b.toNat < a.toNat then false
    else lexLe as bs

/-- String comparison used to sort the search-space parameter names. -/
def strLe (a b : String) : Bool :=
  lexLe a.data b.data

theorem lexLe_total : ∀ (as bs : List Char), lexLe as bs = true ∨ lexLe bs as = true := by
  intro as
  induction as with
  | nil => intro bs; left; rfl
  | cons a as ih =>
    intro bs
    cases bs with
    | nil => right; rfl
    | cons b bs =>
      simp only [lexLe]
      rcases Nat.lt_trichotomy a.toNat b.toNat with h | h | h
      · left; rw [if_pos h]
      · have h1 : ¬ a.toNat < b.toNat := by omega
        have h2 : ¬ b.toNat < a.toNat := by omega
        rw [if_neg h1, if_neg h2, if_neg h2, if_neg h1]
        exact ih bs
      · right; rw [if_pos h]

theorem lexLe_trans : ∀ (as bs cs : List Char),
    lexLe as bs = true → lexLe bs cs = true → lexLe as cs = true := by
  intro as
  induction as with
  | nil => intro bs cs _ _; rfl
  | cons a as ih =>
    intro bs cs h1 h2
    cases bs with
    | nil => simp [lexLe] at h1
    | cons b bs =>
      cases cs with
      | nil => simp [lexLe] at h2
      | cons c cs =>
        simp only [lexLe] at h1 h2 ⊢
        split_ifs at h1 h2 ⊢ <;> first
          | rfl
          | omega
          | exact ih bs cs h1 h2

instance strLeIsTotal : IsTotal String (fun a b => strLe a b = true) :=
  ⟨fun a b => lexLe_total a.data b.data⟩

instance strLeIsTrans : IsTrans String (fun a b => strLe a b = true) :=
  ⟨fun a b c => lexLe_trans a.data b.data c.data⟩

/-- `list(sorted(self.search_space.keys()))` (`Optimizer.optimize`,
line 1244): the canonical sorted parameter-name order.  The search space is a
mapping from parameter name to its dimension spec, embedded as the list of its
entries. -/
def hyperparametersOf {D : Type} (search_space : List (String × D)) : List String :=
  (search_space.map Prod.fst).insertionSort (fun a b => strLe a b = true)

/-- The positional parameter binding built by `_objective_function`
(lines 129–131): position `i` of the vector handed by the minimizer is bound
to the `i`-th name of the canonical order. -/
def objectiveParams {D V : Type} (search_space : List (String × D)) (vec : List V) :
    List (String × V) :=
  (hyperparametersOf search_space).zip vec

/-- The hyperparameter-name list handed to `Best_evaluation`
(`Optimizer.optimize`, line 1298): the same canonical sorted list
(`self.hyperparameters`). -/
def bestEvalNames {D : Type} (search_space : List (String × D)) : List String :=
  hyperparametersOf search_space

/-- C7: the canonical parameter-name order is sorted and is a permutation of
the declared search-space names; the positional vector handed to the objective
is interpreted by binding position `i` to the `i`-th sorted name; and the
name order exposed in the final `Best_evaluation` report is that same sorted
list. -/
theorem sorted_positional_contract {D V : Type} (search_space : List (String × D))
    (vec : List V) :
    List.Sorted (fun a b => strLe a b = true) (hyperparametersOf search_space) ∧
    (hyperparametersOf search_space).Perm (search_space.map Prod.fst) ∧
    bestEvalNames search_space = hyperparametersOf search_space ∧
    ∀ (i : Nat) (paramName : String) (v : V),
      (hyperparametersOf search_space)[i]? = some paramName → vec[i]? = some v →
        (objectiveParams search_space vec)[i]? = some (paramName, v) := by
  refine ⟨List.sorted_insertionSort _ _, List.perm_insertionSort _ _, rfl, ?_⟩
  intro i paramName v h1 h2
  rw [objectiveParams, List.getElem?_zip_eq_some]
  exact ⟨h1, h2⟩

/-- C7 witness: the contract at the concrete search space
`{"beta": 0, "alpha": 1}` and vector `[3, 7]` (sorted order
`["alpha", "beta"]`). -/
theorem sorted_positional_contract_witness :
    List.Sorted (fun a b => strLe a b = true)
      (hyperparametersOf [("beta", (0 : Nat)), ("alpha", 1)]) ∧
    (hyperparametersOf [("beta", (0 : Nat)), ("alpha", 1)]).Perm
      ([("beta", (0 : Nat)), ("alpha", 1)].map Prod.fst) ∧
    bestEvalNames [("beta", (0 : Nat)), ("alpha", 1)] =
      hyperparametersOf [("beta", (0 : Nat)), ("alpha", 1)] ∧
    ∀ (i : Nat) (paramName : String) (v : Nat),
      (hyperparametersOf [("beta", (0 : Nat)), ("alpha", 1)])[i]? = some paramName →
        ([3, 7] : List Nat)[i]? = some v →
        (objectiveParams [("beta", (0 : Nat)), ("alpha", 1)] [3, 7])[i]? =
          some (paramName, v) :=
  sorted_positional_contract [("beta", (0 : Nat)), ("alpha", 1)] [3, 7]

-- C8 model -----------------------------------------------------------------

/-- `Coherence.score` (src/evaluation_metrics/coherence_metrics.py,
lines 36–53): if `topk` exceeds the word count of the first topic the call
raises `Exception('Words in topics are less than topk')`; otherwise it
returns the coherence computed by the external gensim `CoherenceModel`
(abstracted as `get_coherence`, since the numeric computation is an external
collaborator).  `topics` is the first component of the model output. -/
def Coherence_score {G : Type} (topics : List (List String)) (topk : Nat)
    (get_coherence : List (List String) → Nat → G) : Except String G :=
  if (topics.headD []).length < topk then
    Except.error "Words in topics are less than topk"
  else
    Except.ok (get_coherence topics topk)

/-- `Coherence_word_embeddings.score` (lines 85–105): same guard, then the
word-embedding similarity computation (external word vectors, abstracted). -/
def Coherence_word_embeddings_score {G : Type} (topics : List (List String)) (topk : Nat)
    (embeddings_coherence : List (List String) → Nat → G) : Except String G :=
  if (topics.headD []).length < topk then
    Except.error "Words in topics are less than topk"
  else
    Except.ok (embeddings_coherence topics topk)

/-- `Coherence_word_embeddings_pairwise.score` (lines 131–162): same guard,
then the pairwise cosine-similarity computation (floating-point numerics,
abstracted). -/
def Coherence_word_embeddings_pairwise_score {G : Type} (topics : List (List String))
    (topk : Nat) (pairwise_coherence : List (List String) → Nat → G) : Except String G :=
  if (topics.headD []).length < topk then
    Except.error "Words in topics are less than topk"
  else
    Except.ok (pairwise_coherence topics topk)

/-- `Coherence_word_embeddings_centroid.score` (lines 188–228): same guard,
then the centroid cosine-distance computation (floating-point numerics,
abstracted). -/
def Coherence_word_embeddings_centroid_score {G : Type} (topics : List (List String))
    (topk : Nat) (centroid_coherence : List (List String) → Nat → G) : Except String G :=
  if (topics.headD []).length < topk then
    Except.error "Words in topics are less than topk"
  else
    Except.ok (centroid_coherence topics topk)

/-- C8: for every one of the four coherence metrics, when `topk` exceeds the
word count of the first topic of the model output, `score` fails with the
fatal error `'Words in topics are less than topk'` (no clamping); otherwise it
returns a computed coherence score.  The hypothesis restricts to a non-empty
topic list, since on an empty one the Python code fails earlier with an
`IndexError` on `self.topics[0]`. -/
theorem coherence_topk_guard {G : Type} (topics : List (List String)) (topk : Nat)
    (f1 f2 f3 f4 : List (List String) → Nat → G) (_htopics : topics ≠ []) :
    ((topics.headD []).length < topk →
      Coherence_score topics topk f1 = Except.error "Words in topics are less than topk" ∧
      Coherence_word_embeddings_score topics topk f2 =
        Except.error "Words in topics are less than topk" ∧
      Coherence_word_embeddings_pairwise_score topics topk f3 =
        Except.error "Words in topics are less than topk" ∧
      Coherence_word_embeddings_centroid_score topics topk f4 =
        Except.error "Words in topics are less than topk") ∧
    (topk ≤ (topics.headD []).length →
      Coherence_score topics topk f1 = Except.ok (f1 topics topk) ∧
      Coherence_word_embeddings_score topics topk f2 = Except.ok (f2 topics topk) ∧
      Coherence_word_embeddings_pairwise_score topics topk f3 = Except.ok (f3 topics topk) ∧
      Coherence_word_embeddings_centroid_score topics topk f4 =
        Except.ok (f4 topics topk)) := by
  constructor
  · intro hlt
    refine ⟨?_, ?_, ?_, ?_⟩ <;>
      · simp only [Coherence_score, Coherence_word_embeddings_score,
          Coherence_word_embeddings_pairwise_score, Coherence_word_embeddings_centroid_score]
        rw [if_pos hlt]
  · intro hle
    have hnlt : ¬ (topics.headD []).length < topk := by omega
    refine ⟨?_, ?_, ?_, ?_⟩ <;>
      · simp only [Coherence_score, Coherence_word_embeddings_score,
          Coherence_word_embeddings_pairwise_score, Coherence_word_embeddings_centroid_score]
        rw [if_neg hnlt]

/-- C8 witness: a model output whose first topic has 2 words, with
`topk = 10`, fails on all four metrics; with `topk = 2` all four succeed. -/
theorem coherence_topk_guard_witness :
    ([["w1", "w2"]] : List (List String)) ≠ [] ∧
    ((([["w1", "w2"]] : List (List String)).headD []).length < 10 →
      Coherence_score [["w1", "w2"]] 10 (fun _ _ => (0 : Nat)) =
        Except.error "Words in topics are less than topk" ∧
      Coherence_word_embeddings_score [["w1", "w2"]] 10 (fun _ _ => (0 : Nat)) =
        Except.error "Words in topics are less than topk" ∧
      Coherence_word_embeddings_pairwise_score [["w1", "w2"]] 10 (fun _ _ => (0 : Nat)) =
        Except.error "Words in topics are less than topk" ∧
      Coherence_word_embeddings_centroid_score [["w1", "w2"]] 10 (fun _ _ => (0 : Nat)) =
        Except.error "Words in topics are less than topk") ∧
    (10 ≤ (([["w1", "w2"]] : List (List String)).headD []).length →
      Coherence_score [["w1", "w2"]] 10 (fun _ _ => (0 : Nat)) =
        Except.ok ((fun _ _ => (0 : Nat)) [["w1", "w2"]] 10) ∧
      Coherence_word_embeddings_score [["w1", "w2"]] 10 (fun _ _ => (0 : Nat)) =
        Except.ok ((fun _ _ => (0 : Nat)) [["w1", "w2"]] 10) ∧
      Coherence_word_embeddings_pairwise_score [["w1", "w2"]] 10 (fun _ _ => (0 : Nat)) =
        Except.ok ((fun _ _ => (0 : Nat)) [["w1", "w2"]] 10) ∧
      Coherence_word_embeddings_centroid_score [["w1", "w2"]] 10 (fun _ _ => (0 : Nat)) =
        Except.ok ((fun _ _ => (0 : Nat)) [["w1", "w2"]] 10)) :=
  ⟨by decide,
    (coherence_topk_guard [["w1", "w2"]] 10 (fun _ _ => (0 : Nat)) (fun _ _ => (0 : Nat))
      (fun _ _ => (0 : Nat)) (fun _ _ => (0 : Nat)) (by decide)).1,
    (coherence_topk_guard [["w1", "w2"]] 10 (fun _ _ => (0 : Nat)) (fun _ _ => (0 : Nat))
      (fun _ _ => (0 : Nat)) (fun _ _ => (0 : Nat)) (by decide)).2⟩

-- C10 model ----------------------------------------------------------------

/-- Python `dict.update`: keys present in `p` take their `p` value, every
other key keeps its value in `d`.  Models
`default_parameters.update(self.optimization_parameters)`
(`Optimizer.optimize`, line 1249), which mutates the module-level
`default_parameters` dictionary in place; nothing in `optimize()` ever
restores the previous contents. -/
def dictUpdate {V : Type} (d : String → Option V) (p : List (String × V)) :
    String → Option V :=
  fun k =>
    match p.lookup k with
    | some v => some v
    | none => d k

/-- The module-level configuration dictionary visible after a call to
`optimize()` with instance parameters `p`: the merged dictionary itself,
since the merge happens in place on the module-level object. -/
def afterOptimize {V : Type} (d : String → Option V) (p : List (String × V)) :
    String → Option V :=
  dictUpdate d p

/-- C10: configuration keys set by a first `optimize()` run remain merged
into the module-level defaults and are observed by a second run whenever the
second run does not set those keys itself. -/
theorem default_parameters_leak {V : Type} (d : String → Option V)
    (p1 p2 : List (String × V)) (k : String) (v : V)
    (h1 : p1.lookup k = some v) (h2 : p2.lookup k = none) :
    dictUpdate (afterOptimize d p1) p2 k = some v := by
  simp [dictUpdate, afterOptimize, h1, h2]

/-- C10 witness: a `minimizer` key set by the first run is seen by the
second run, which does not set it. -/
theorem default_parameters_leak_witness :
    ([("minimizer", 1)] : List (String × Nat)).lookup "minimizer" = some 1 ∧
    ([("n_calls", 5)] : List (String × Nat)).lookup "minimizer" = none ∧
    dictUpdate (afterOptimize (fun _ => none) [("minimizer", 1)]) [("n_calls", 5)]
      "minimizer" = some 1 :=
  ⟨by decide, by decide,
    default_parameters_leak (fun _ => none) [("minimizer", 1)] [("n_calls", 5)]
      "minimizer" 1 (by decide) (by decide)⟩

-- C9 model -----------------------------------------------------------------

theorem digitChar_inj10 : ∀ a < 10, ∀ b < 10, digitChar a = digitChar b → a = b := by
  decide

theorem map_digitChar_inj : ∀ {l1 l2 : List Nat}, (∀ x ∈ l1, x < 10) →
    (∀ x ∈ l2, x < 10) → l1.map digitChar = l2.map digitChar → l1 = l2 := by
  intro l1
  induction l1 with
  | nil =>
    intro l2 _ _ h
    cases l2 with
    | nil => rfl
    | cons b bs => simp at h
  | cons a as ih =>
    intro l2 h1 h2 h
    cases l2 with
    | nil => simp at h
    | cons b bs =>
      simp only [List.map_cons, List.cons.injEq] at h
      have ha : a < 10 := h1 a (List.mem_cons_self a as)
      have hb : b < 10 := h2 b (List.mem_cons_self b bs)
      have hab : a = b := digitChar_inj10 a ha b hb h.1
      subst hab
      rw [ih (fun x hx => h1 x (List.mem_cons_of_mem _ hx))
        (fun x hx => h2 x (List.mem_cons_of_mem _ hx)) h.2]

theorem natStr_data_inj {a b : Nat} (ha : 0 < a) (hb : 0 < b)
    (h : (natStr a).data = (natStr b).data) : a = b := by
  unfold natStr at h
  rw [if_neg (by omega : ¬ a = 0), if_neg (by omega : ¬ b = 0)] at h
  have hrev : ((Nat.digits 10 a).map digitChar).reverse =
      ((Nat.digits 10 b).map digitChar).reverse := h
  have hmap : (Nat.digits 10 a).map digitChar = (Nat.digits 10 b).map digitChar :=
    List.reverse_injective hrev
  have hd : Nat.digits 10 a = Nat.digits 10 b :=
    map_digitChar_inj (fun x hx => Nat.digits_lt_base (by norm_num) hx)
      (fun x hx => Nat.digits_lt_base (by norm_num) hx) hmap
  exact Nat.digits.injective 10 hd

/-- A disambiguated metric name: the class name, a space, and a decimal
counter (`extra_metric_name + " " + str(i)`). -/
def candName (base : String) (i : Nat) : String :=
  base ++ " " ++ natStr i

theorem candName_inj (base : String) {i j : Nat} (hi : 0 < i) (hj : 0 < j)
    (h : candName base i = candName base j) : i = j := by
  unfold candName at h
  have hd := congrArg String.data h
  simp only [String.data_append, List.append_assoc] at hd
  have h1 := List.append_cancel_left hd
  have h2 := List.append_cancel_left h1
  exact natStr_data_inj hi hj h2

/-- The Python counter loop (`_objective_function`, lines 152–157): starting
at `i = 2`, advance while `name + " " + str(i)` is already a recorded key.
Structural `fuel`; the callers pass one more than the number of keys, which
the pigeonhole argument below shows is always enough to find a free name. -/
def findSuffix (keys : List String) (base : String) : Nat → Nat → String
  | i, 0 => candName base i
  | i, fuel + 1 =>
    if candName base i ∈ keys then findSuffix keys base (i + 1) fuel
    else candName base i

theorem findSuffix_shape (keys : List String) (base : String) :
    ∀ (fuel i : Nat), ∃ k, i ≤ k ∧ findSuffix keys base i fuel = candName base k := by
  intro fuel
  induction fuel with
  | zero => intro i; exact ⟨i, Nat.le_refl i, rfl⟩
  | succ fuel ih =>
    intro i
    simp only [findSuffix]
    by_cases h : candName base i ∈ keys
    · rw [if_pos h]
      rcases ih (i + 1) with ⟨k, hk, he⟩
      exact ⟨k, by omega, he⟩
    · rw [if_neg h]
      exact ⟨i, Nat.le_refl i, rfl⟩

theorem findSuffix_cases (keys : List String) (base : String) :
    ∀ (fuel i : Nat),
      findSuffix keys base i fuel ∉ keys ∨
        ((∀ j, i ≤ j → j < i + fuel → candName base j ∈ keys) ∧
          findSuffix keys base i fuel = candName base (i + fuel)) := by
  intro fuel
  induction fuel with
  | zero =>
    intro i
    right
    exact ⟨fun j h1 h2 => absurd h2 (by omega), by simp [findSuffix]⟩
  | succ fuel ih =>
    intro i
    simp only [findSuffix]
    by_cases h : candName base i ∈ keys
    · rw [if_pos h]
      rcases ih (i + 1) with hc | ⟨hall, he⟩
      · left; exact hc
      · right
        refine ⟨fun j h1 h2 => ?_, by rw [he]; congr 1; omega⟩
        rcases Nat.eq_or_lt_of_le h1 with heq | hlt
        · exact heq ▸ h
        · exact hall j hlt (by omega)
    · rw [if_neg h]
      left
      exact h

/-- Pigeonhole: among `keys.length + 1` distinct candidate names at least one
is not a key, so the counter loop with that much fuel returns a fresh name. -/
theorem findSuffix_fresh (keys : List String) (base : String) :
    findSuffix keys base 2 (keys.length + 1) ∉ keys := by
  rcases findSuffix_cases keys base (keys.length + 1) 2 with h | ⟨hall, _⟩
  · exact h
  · exfalso
    have hsub : (List.range' 2 (keys.length + 1)).map (candName base) ⊆ keys := by
      intro x hx
      rcases List.mem_map.mp hx with ⟨j, hj, rfl⟩
      rcases List.mem_range'_1.mp hj with ⟨h1, h2⟩
      exact hall j h1 (by omega)
    have hnd : ((List.range' 2 (keys.length + 1)).map (candName base)).Nodup := by
      refine List.Nodup.map_on ?_ (List.nodup_range' _ _)
      intro x hx y hy hxy
      rcases List.mem_range'_1.mp hx with ⟨hx1, _⟩
      rcases List.mem_range'_1.mp hy with ⟨hy1, _⟩
      exact candName_inj base (by omega) (by omega) hxy
    have hle := (hnd.subperm hsub).length_le
    rw [List.length_map, List.length_range'] at hle
    omega

/-- The name-resolution step of `_objective_function` (lines 149–157): keep
the metric's class name if it is not yet a key of `metrics_values`, otherwise
append the first free counter suffix starting at 2. -/
def resolveName (keys : List String) (base : String) : String :=
  if base ∈ keys then findSuffix keys base 2 (keys.length + 1) else base

theorem resolveName_fresh (keys : List String) (base : String) :
    resolveName keys base ∉ keys := by
  unfold resolveName
  by_cases h : base ∈ keys
  · rw [if_pos h]
    exact findSuffix_fresh keys base
  · rw [if_neg h]
    exact h

theorem resolveName_shape (keys : List String) (base : String) :
    resolveName keys base = base ∨
      ∃ k, 2 ≤ k ∧ resolveName keys base = candName base k := by
  unfold resolveName
  by_cases h : base ∈ keys
  · rw [if_pos h]
    rcases findSuffix_shape keys base (keys.length + 1) 2 with ⟨k, hk, he⟩
    exact Or.inr ⟨k, hk, he⟩
  · rw [if_neg h]
    exact Or.inl rfl

/-- Python dict assignment `metrics_values[name] = v` on the insertion-ordered
dictionary, embedded as an association list: replace the value if the key is
present, append the pair otherwise. -/
def dictInsert {V : Type} (mv : List (String × V)) (k : String) (v : V) :
    List (String × V) :=
  if k ∈ mv.map Prod.fst then
    mv.map (fun p => if p.1 = k then (p.1, v) else p)
  else mv ++ [(k, v)]

/-- Recording one auxiliary metric (`_objective_function`, lines 147–159):
resolve the class name against the current keys, then store the metric's
score under the resolved name. -/
def addExtraMetric {V : Type} (mv : List (String × V)) (metric : String × V) :
    List (String × V) :=
  dictInsert mv (resolveName (mv.map Prod.fst) metric.1) metric.2

/-- The full `metrics_values` dictionary of one objective evaluation: the
primary metric's entry followed by the auxiliary metrics in order
(each `extras` entry pairs the metric's class name with its score). -/
def recordMetrics {V : Type} (primary : String) (pval : V)
    (extras : List (String × V)) : List (String × V) :=
  extras.foldl addExtraMetric [(primary, pval)]

/-- `self._iterations.append(iteration)` (line 162): the
(hyperparameter-vector, metric-values) record is appended to the iteration
log exactly once per evaluation. -/
def appendIteration {P M : Type} (iters : List (P × M)) (vec : P) (mv : M) :
    List (P × M) :=
  iters ++ [(vec, mv)]

theorem addExtraMetric_eq {V : Type} (mv : List (String × V)) (metric : String × V) :
    addExtraMetric mv metric =
      mv ++ [(resolveName (mv.map Prod.fst) metric.1, metric.2)] := by
  unfold addExtraMetric dictInsert
  rw [if_neg (resolveName_fresh (mv.map Prod.fst) metric.1)]

theorem recordMetrics_aux {V : Type} :
    ∀ (extras : List (String × V)) (mv : List (String × V)),
      (mv.map Prod.fst).Nodup →
      ∃ entries : List (String × V),
        extras.foldl addExtraMetric mv = mv ++ entries ∧
        ((mv ++ entries).map Prod.fst).Nodup ∧
        entries.length = extras.length ∧
        ∀ (j : Nat) (entry : String × V), entries[j]? = some entry →
          ∃ b v, extras[j]? = some (b, v) ∧ entry.2 = v ∧
            (entry.1 = b ∨ ∃ k, 2 ≤ k ∧ entry.1 = candName b k) := by
  intro extras
  induction extras with
  | nil =>
    intro mv hnd
    exact ⟨[], by simp, by simpa using hnd, rfl, fun j entry h => by simp at h⟩
  | cons metric extras ih =>
    intro mv hnd
    have hstep := addExtraMetric_eq mv metric
    have hnd' : ((mv ++ [(resolveName (mv.map Prod.fst) metric.1, metric.2)]).map
        Prod.fst).Nodup := by
      rw [List.map_append, List.nodup_append]
      refine ⟨hnd, by simp, ?_⟩
      intro x hx hx'
      simp only [List.map_cons, List.map_nil, List.mem_singleton] at hx'
      subst hx'
      exact resolveName_fresh (mv.map Prod.fst) metric.1 hx
    rcases ih (mv ++ [(resolveName (mv.map Prod.fst) metric.1, metric.2)]) hnd' with
      ⟨entries, he, hnd2, hlen, hsh⟩
    refine ⟨(resolveName (mv.map Prod.fst) metric.1, metric.2) :: entries, ?_, ?_, ?_, ?_⟩
    · rw [List.foldl_cons, hstep, he, List.append_assoc, List.singleton_append]
    · rw [show mv ++ (resolveName (mv.map Prod.fst) metric.1, metric.2) :: entries =
        (mv ++ [(resolveName (mv.map Prod.fst) metric.1, metric.2)]) ++ entries by simp]
      exact hnd2
    · simp [hlen]
    · intro j entry hj
      cases j with
      | zero =>
        simp only [List.getElem?_cons_zero, Option.some.injEq] at hj
        subst hj
        refine ⟨metric.1, metric.2, by simp, rfl, ?_⟩
        rcases resolveName_shape (mv.map Prod.fst) metric.1 with h | ⟨k, hk, h⟩
        · exact Or.inl h
        · exact Or.inr ⟨k, hk, h⟩
      | succ j =>
        rw [List.getElem?_cons_succ] at hj
        simpa using hsh j entry hj

/-- C9: within one objective evaluation, the recorded metric keys are all
distinct (duplicate class names receive a counter suffix `" 2"`, `" 3"`, …,
starting from 2), no entry of `metrics_values` is overwritten (the dictionary
holds the primary entry plus one entry per auxiliary metric, each stored under
its class name or a suffixed variant of it, with its own score), and the
(vector, metric-values) record is appended to the iteration log exactly once
per evaluation. -/
theorem metric_name_disambiguation {V : Type} (primary : String) (pval : V)
    (extras : List (String × V)) (vec : List ℚ)
    (iters : List (List ℚ × List (String × V))) :
    ((recordMetrics primary pval extras).map Prod.fst).Nodup ∧
    (recordMetrics primary pval extras).length = 1 + extras.length ∧
    (∃ entries, recordMetrics primary pval extras = (primary, pval) :: entries ∧
      ∀ (j : Nat) (entry : String × V), entries[j]? = some entry →
        ∃ b v, extras[j]? = some (b, v) ∧ entry.2 = v ∧
          (entry.1 = b ∨ ∃ k, 2 ≤ k ∧ entry.1 = candName b k)) ∧
    (appendIteration iters vec (recordMetrics primary pval extras)).length =
      iters.length + 1 := by
  rcases recordMetrics_aux extras [(primary, pval)] (by simp) with
    ⟨entries, he, hnd, hlen, hsh⟩
  have hrm : recordMetrics primary pval extras = (primary, pval) :: entries := by
    rw [recordMetrics, he, List.singleton_append]
  refine ⟨?_, ?_, ⟨entries, hrm, hsh⟩, ?_⟩
  · rw [hrm]
    simpa using hnd
  · rw [hrm]
    simp only [List.length_cons, hlen]
    omega
  · simp [appendIteration]

/-- Sanity check of the embedding on the spec's duplicate-name example: two
auxiliary metrics that share the primary metric's class name are recorded
under `"Coherence 2"` and `"Coherence 3"`. -/
theorem recordMetrics_example :
    recordMetrics "Coherence" (1 : Nat) [("Coherence", 2), ("Coherence", 3)] =
      [("Coherence", 1), ("Coherence 2", 2), ("Coherence 3", 3)] := by
  have h2 : natStr 2 = "2" := by simp [natStr]; rfl
  have h3 : natStr 3 = "3" := by simp [natStr]; rfl
  simp only [recordMetrics, List.foldl_cons, List.foldl_nil, addExtraMetric, dictInsert,
    resolveName, findSuffix, candName, h2, h3]
  decide
